import Mathlib

/-!
Verification of the task-management backend's core subsystems: the
cache-aside resolver (`internal/repository/task_repo.go`) and the bounded
work dispatcher (`internal/service/worker.go`), together with the service
layer (`internal/service/task_service.go`) and the data model
(`internal/models/task.go`).

The Go code is shallowly embedded: Go strings become `List Char`, the
relational store becomes a list of rows plus an optional connection
failure, the Redis cache becomes an association list plus an optional
failure, and the goroutine/channel constructions become explicit
transition systems whose nondeterminism is exhausted by enumerating all
successor states.
-/

namespace TaskMgr

/-- Go strings are modelled as lists of characters. -/
abbrev Str := List Char

/-- Coercion from Lean string literals to the `Str` model. -/
def strLit (s : String) : Str := s.toList

/-- UUIDs (`github.com/google/uuid`) are opaque identifiers rendered into
cache keys as their canonical string form; they are modelled directly as
strings.  A rendered UUID is 36 characters long and contains only hex
digits and dashes. -/
abbrev Uuid := Str

/-- Timestamps (`time.Time`) are modelled as integers; only equality and
ordering on `created_at` matter to the embedded code. -/
abbrev Time := Int

/-- Source: `internal/models/task.go`, `type TaskStatus string`.  The Go
type is a string type (any string value inhabits it); the four declared
constants are below. -/
abbrev TaskStatus := Str

/-- Source: `models.StatusPending`. -/
def StatusPending : TaskStatus := strLit "pending"

/-- Source: `models.StatusInProgress`. -/
def StatusInProgress : TaskStatus := strLit "in_progress"

/-- Source: `models.StatusCompleted`. -/
def StatusCompleted : TaskStatus := strLit "completed"

/-- Source: `models.StatusCancelled`. -/
def StatusCancelled : TaskStatus := strLit "cancelled"

/-- Source: `models.Task` (`internal/models/task.go` lines 18-29). -/
structure Task where
  ID : Uuid
  UserID : Uuid
  Title : Str
  Description : Str
  Status : TaskStatus
  Priority : Int
  DueDate : Option Time
  CompletedAt : Option Time
  CreatedAt : Time
  UpdatedAt : Time
deriving DecidableEq, Repr

/-- Source: `models.TaskFilter` (`internal/models/task.go` lines 46-53). -/
structure TaskFilter where
  Status : Option TaskStatus
  Priority : Option Int
  FromDate : Option Time
  ToDate : Option Time
  Limit : Int
  Offset : Int
deriving DecidableEq, Repr

/-- Source: `models.UpdateTaskRequest` (`internal/models/task.go` lines 38-44). -/
structure UpdateTaskRequest where
  Title : Option Str
  Description : Option Str
  Status : Option TaskStatus
  Priority : Option Int
  DueDate : Option Time
deriving DecidableEq, Repr

/-- The persistent store: the `tasks` table plus the connection's health.
When `fail` is `some e`, every query issued on the connection fails
with `e` (models a failing `pgx.Conn`). -/
structure DbState where
  rows : List Task
  fail : Option Str
deriving DecidableEq, Repr

/-- Row lookup by primary key, the semantics of
`SELECT ... FROM tasks WHERE id = $1`. -/
def findRow (rows : List Task) (id : Uuid) : Option Task :=
  rows.find? (fun t => t.ID == id)

/-- Source: `taskRepository.FindByID` (`task_repo.go` lines 266-288).
A `pgx.ErrNoRows` result (the id is absent) is translated to
`(nil, nil)`: no task and no error.  Any other query error is wrapped. -/
def FindByID (db : DbState) (id : Uuid) : Option Task × Option Str :=
  match db.fail with
  | some e => (none, some (strLit "failed to find task: " ++ e))
  | none =>
    match findRow db.rows id with
    | some t => (some t, none)
    | none => (none, none)

/-- Source: `taskService.GetTask` (`task_service.go` lines 54-56): a bare
delegation to `repo.FindByID`. -/
def GetTask (db : DbState) (id : Uuid) : Option Task × Option Str :=
  FindByID db id

/-- Source: the batch-construction loop of `TaskWorker.BatchProcessTasks`
(`worker.go` lines 74-82): consecutive slices `taskIDs[i:i+batchSize]`
in input order, the last slice truncated at the end of the list.  For
`batchSize = 0` the Go loop never terminates; the embedding returns `[]`
there and every theorem about batching assumes `batchSize ≥ 1`. -/
def makeBatches (ids : List α) (batchSize : Nat) : List (List α) :=
  match batchSize, ids with
  | 0, _ => []
  | _ + 1, [] => []
  | b + 1, x :: xs =>
    (x :: xs).take (b + 1) :: makeBatches ((x :: xs).drop (b + 1)) (b + 1)
termination_by ids.length
decreasing_by
  simp only [List.length_drop, List.length_cons]
  omega

/-- Concatenating the batches returns the input id list (batch size ≥ 1). -/
lemma makeBatches_flatten (ids : List α) (n : Nat) (hn : 1 ≤ n) :
    (makeBatches ids n).flatten = ids := by
  induction ids, n using makeBatches.induct with
  | case1 => omega
  | case2 => simp [makeBatches]
  | case3 b x xs ih =>
    rw [makeBatches]
    simp only [List.flatten_cons]
    rw [ih (by omega)]
    exact List.take_append_drop _ _

/-- Every batch is nonempty and no longer than the batch size. -/
lemma makeBatches_bounded (ids : List α) (n : Nat) (hn : 1 ≤ n) :
    ∀ g ∈ makeBatches ids n, g ≠ [] ∧ g.length ≤ n := by
  induction ids, n using makeBatches.induct with
  | case1 => omega
  | case2 => simp [makeBatches]
  | case3 b x xs ih =>
    rw [makeBatches]
    intro g hg
    rcases List.mem_cons.mp hg with h | h
    · subst h
      exact ⟨by simp, by simp⟩
    · exact ih (by omega) g h

/-- Every batch except possibly the last has exactly the batch size. -/
lemma makeBatches_full (ids : List α) (n : Nat) (hn : 1 ≤ n) :
    ∀ g ∈ (makeBatches ids n).dropLast, g.length = n := by
  induction ids, n using makeBatches.induct with
  | case1 => omega
  | case2 => simp [makeBatches]
  | case3 b x xs ih =>
    rw [makeBatches]
    intro g hg
    by_cases hrest : makeBatches ((x :: xs).drop (b + 1)) (b + 1) = []
    · rw [hrest] at hg
      simp at hg
    · rw [List.dropLast_cons_of_ne_nil hrest] at hg
      rcases List.mem_cons.mp hg with h | h
      · subst h
        have hlen : b + 1 ≤ (x :: xs).length := by
          by_contra hc
          push_neg at hc
          have hnil : (x :: xs).drop (b + 1) = [] := List.drop_eq_nil_of_le (by omega)
          rw [hnil] at hrest
          exact hrest (by simp [makeBatches])
        simp only [List.length_take, List.length_cons] at *
        omega
      · exact ih (by omega) g h

/-- C6: `BatchProcessTasks` partitions the input id list into consecutive
groups of exactly the given size in input order, with only the last group
possibly smaller; a list of 5 ids with batch size 2 partitions into
groups of sizes [2, 2, 1]. -/
theorem C6_batch_partition (ids : List α) (n : Nat) (hn : 1 ≤ n) :
    (makeBatches ids n).flatten = ids
    ∧ (∀ g ∈ makeBatches ids n, g ≠ [] ∧ g.length ≤ n)
    ∧ (∀ g ∈ (makeBatches ids n).dropLast, g.length = n)
    ∧ (makeBatches [1, 2, 3, 4, 5] 2).map List.length = [2, 2, 1] :=
  ⟨makeBatches_flatten ids n hn, makeBatches_bounded ids n hn,
   makeBatches_full ids n hn, by simp [makeBatches]⟩

/-- Witness for C6 at the concrete input of the spec's example. -/
theorem C6_batch_partition_witness :
    (makeBatches [1, 2, 3, 4, 5] 2).map List.length = [2, 2, 1] :=
  (C6_batch_partition [1, 2, 3, 4, 5] 2 (by norm_num)).2.2.2

/-- C10: for an id absent from the store, `FindByID` returns a nil task
together with a nil error (absence is not a typed NotFound error), and
the service-level `GetTask` propagates the pair unchanged. -/
theorem C10_findByID_absent (db : DbState) (id : Uuid)
    (hdb : db.fail = none) (habs : findRow db.rows id = none) :
    FindByID db id = (none, none) ∧ GetTask db id = FindByID db id := by
  constructor
  · simp [FindByID, hdb, habs]
  · rfl

/-- Witness for C10: the empty store with a healthy connection. -/
theorem C10_findByID_absent_witness :
    FindByID ⟨[], none⟩ (strLit "a") = (none, none)
    ∧ GetTask ⟨[], none⟩ (strLit "a") = FindByID ⟨[], none⟩ (strLit "a") :=
  C10_findByID_absent ⟨[], none⟩ (strLit "a") rfl rfl

/-- The Redis cache: an association list from keys to cached task lists,
plus the connection's health.  Serialization (JSON marshal/unmarshal) is
modelled as the identity, and entry TTLs are not modelled (no claim
depends on expiry).  When `fail` is `some e`, every cache command fails
with `e`. -/
structure CacheState where
  entries : List (Str × List Task)
  fail : Option Str
deriving DecidableEq, Repr

/-- Key lookup in the cache (the semantics of a successful `GET`). -/
def cacheGet (c : CacheState) (k : Str) : Option (List Task) :=
  (c.entries.find? (fun kv => kv.1 == k)).map (fun kv => kv.2)

/-- Boolean prefix test on character lists. -/
def startsWith : Str → Str → Bool
  | [], _ => true
  | _ :: _, [] => false
  | a :: p, b :: s => a == b && startsWith p s

/-- Source: `taskRepository.invalidateUserCache` (`task_repo.go` lines
353-366): `SCAN` with the glob pattern `tasks:<uid>*` followed by `DEL`
of every reported key.  A UUID contains no glob metacharacter, so the
pattern matches exactly the keys with the literal prefix `tasks:<uid>`;
deleting all of them is filtering the entry list.  On a failing cache
connection the scan iterator reports nothing, so nothing is deleted
(the operation is best-effort). -/
def invalidateUserCache (uid : Uuid) (c : CacheState) : CacheState :=
  match c.fail with
  | some _ => c
  | none =>
    { c with entries :=
        c.entries.filter (fun kv => !(startsWith (strLit "tasks:" ++ uid) kv.1)) }

/-- Columns written by the `UPDATE tasks SET ...` statement of
`taskRepository.Update`: title, description, status, priority, due_date,
completed_at from the given task, updated_at from the database clock.
The row's id, user_id and created_at are not in the SET list. -/
def applyUpdateRow (t : Task) (dbNow : Time) (r : Task) : Task :=
  { r with Title := t.Title, Description := t.Description, Status := t.Status,
           Priority := t.Priority, DueDate := t.DueDate,
           CompletedAt := t.CompletedAt, UpdatedAt := dbNow }

/-- Source: `taskRepository.Update` (`task_repo.go` lines 295-322).
Returns the error (if any), the store, and the cache after the
owner-scoped invalidation goroutine has completed (the claims about
invalidation quantify over the moment that step is done). -/
def Update (db : DbState) (cache : Option CacheState) (t : Task) (dbNow : Time) :
    Option Str × DbState × Option CacheState :=
  match db.fail with
  | some e => (some (strLit "failed to update task: " ++ e), db, cache)
  | none =>
    match findRow db.rows t.ID with
    | none => (some (strLit "task not found with id: " ++ t.ID), db, cache)
    | some _ =>
      (none,
       { db with rows := db.rows.map (fun r => if r.ID == t.ID then applyUpdateRow t dbNow r else r) },
       cache.map (invalidateUserCache t.UserID))

/-- Field-by-field application of an `UpdateTaskRequest`, the body of
`taskService.UpdateTask` (`task_service.go` lines 67-84).  The
completion timestamp is never touched. -/
def applyUpdateRequest (t : Task) (req : UpdateTaskRequest) (now : Time) : Task :=
  let t := match req.Title with | some v => { t with Title := v } | none => t
  let t := match req.Description with | some v => { t with Description := v } | none => t
  let t := match req.Status with | some v => { t with Status := v } | none => t
  let t := match req.Priority with | some v => { t with Priority := v } | none => t
  let t := match req.DueDate with | some v => { t with DueDate := some v } | none => t
  { t with UpdatedAt := now }

/-- Source: `taskService.UpdateTask` (`task_service.go` lines 58-91):
fetch, nil-check, apply request fields, persist. -/
def UpdateTask (db : DbState) (cache : Option CacheState) (id : Uuid)
    (req : UpdateTaskRequest) (now dbNow : Time) :
    (Option Task × Option Str) × DbState × Option CacheState :=
  match FindByID db id with
  | (none, some e) => ((none, some e), db, cache)
  | (none, none) => ((none, some (strLit "task not found")), db, cache)
  | (some t, _) =>
    let t' := applyUpdateRequest t req now
    match Update db cache t' dbNow with
    | (some e, db', c') => ((none, some e), db', c')
    | (none, db', c') => ((some { t' with UpdatedAt := dbNow }, none), db', c')

/-- Convenience constructor for sample tasks used in concrete instances. -/
def mkTask (id uid : Uuid) (status : TaskStatus) (completedAt : Option Time)
    (createdAt : Time) : Task :=
  { ID := id, UserID := uid, Title := strLit "t", Description := [],
    Status := status, Priority := 1, DueDate := none,
    CompletedAt := completedAt, CreatedAt := createdAt, UpdatedAt := 0 }

/-- A completed task with a completion timestamp, for the C9 instance. -/
def staleTask : Task := mkTask (strLit "id1") (strLit "u1") StatusCompleted (some 5) 0

/-- The update request that moves a task back to `pending`. -/
def pendingReq : UpdateTaskRequest :=
  { Title := none, Description := none, Status := some StatusPending,
    Priority := none, DueDate := none }

/-- C9 fails on the code: updating a completed task (completion timestamp
`some 5`) to status `pending` stores a task that still carries the stale
completion timestamp `some 5`. -/
theorem C9_counterexample :
    ((UpdateTask ⟨[staleTask], none⟩ none (strLit "id1") pendingReq 10 11).2.1.rows.map
        Task.Status = [StatusPending])
    ∧ ((UpdateTask ⟨[staleTask], none⟩ none (strLit "id1") pendingReq 10 11).2.1.rows.map
        Task.CompletedAt = [some 5])
    ∧ StatusPending ≠ StatusCompleted
    ∧ some (5 : Time) ≠ none := by
  refine ⟨rfl, rfl, by decide, by simp⟩

/-- The request application never touches the completion timestamp. -/
lemma applyUpdateRequest_CompletedAt (t : Task) (req : UpdateTaskRequest) (now : Time) :
    (applyUpdateRequest t req now).CompletedAt = t.CompletedAt := by
  obtain ⟨a, b, c, d, e⟩ := req
  simp only [applyUpdateRequest]
  cases a <;> cases b <;> cases c <;> cases d <;> cases e <;> rfl

/-- The request application never touches the task id. -/
lemma applyUpdateRequest_ID (t : Task) (req : UpdateTaskRequest) (now : Time) :
    (applyUpdateRequest t req now).ID = t.ID := by
  obtain ⟨a, b, c, d, e⟩ := req
  simp only [applyUpdateRequest]
  cases a <;> cases b <;> cases c <;> cases d <;> cases e <;> rfl

/-- Row lookup commutes with an id-preserving row transformation. -/
lemma findRow_map (rows : List Task) (id : Uuid) (f : Task → Task)
    (hf : ∀ r, (f r).ID = r.ID) :
    findRow (rows.map f) id = (findRow rows id).map f := by
  induction rows with
  | nil => rfl
  | cons r rs ih =>
    simp only [findRow, List.map_cons, List.find?_cons] at *
    rw [hf r]
    by_cases h : (r.ID == id) = true
    · simp [h]
    · simp only [Bool.not_eq_true] at h
      simp [h, ih]

/-- C9 amended: the stored task retains the completion timestamp of the
fetched task unchanged — `UpdateTask` never writes `CompletedAt`, so a
transition away from `completed` keeps the stale timestamp. -/
theorem C9_stale_timestamp_retained (db : DbState) (cache : Option CacheState)
    (id : Uuid) (req : UpdateTaskRequest) (now dbNow : Time) (t : Task)
    (hfind : FindByID db id = (some t, none)) :
    ∀ r, findRow (UpdateTask db cache id req now dbNow).2.1.rows id = some r →
      r.CompletedAt = t.CompletedAt := by
  have hfail : db.fail = none := by
    cases hf : db.fail with
    | none => rfl
    | some e => rw [FindByID, hf] at hfind; simp at hfind
  have hrow : findRow db.rows id = some t := by
    rw [FindByID, hfail] at hfind
    cases hr : findRow db.rows id with
    | none => rw [hr] at hfind; simp at hfind
    | some t₁ => rw [hr] at hfind; simp at hfind; rw [hfind]
  have htid : t.ID = id := by
    have := List.find?_some hrow
    exact eq_of_beq this
  intro r hr
  rw [UpdateTask, FindByID, hfail, hrow] at hr
  simp only at hr
  rw [Update, hfail, applyUpdateRequest_ID, htid, hrow] at hr
  simp only at hr
  have hf : ∀ r₀ : Task,
      ((fun r₀ => if (r₀.ID == id) = true
          then applyUpdateRow (applyUpdateRequest t req now) dbNow r₀ else r₀) r₀).ID
        = r₀.ID := by
    intro r₀
    by_cases hc : (r₀.ID == id) = true
    · simp only [hc, if_pos]
      rfl
    · simp [hc]
  rw [findRow_map db.rows id _ hf] at hr
  rw [hrow] at hr
  simp only [Option.map_some'] at hr
  have hcond : (t.ID == id) = true := by
    rw [htid]
    exact beq_self_eq_true id
  rw [if_pos hcond] at hr
  injection hr with hr
  rw [← hr]
  simp [applyUpdateRow, applyUpdateRequest_CompletedAt]

/-- Witness for the amended C9 at the concrete stale-task store. -/
theorem C9_stale_timestamp_retained_witness :
    (applyUpdateRow (applyUpdateRequest staleTask pendingReq 10) 11 staleTask).CompletedAt
      = staleTask.CompletedAt :=
  C9_stale_timestamp_retained ⟨[staleTask], none⟩ none (strLit "id1") pendingReq 10 11
    staleTask rfl
    (applyUpdateRow (applyUpdateRequest staleTask pendingReq 10) 11 staleTask) rfl

/-- Little-endian decimal digits of `n`, with explicit fuel (any fuel
at least the digit count, in particular `n` itself, gives the digits). -/
def renderNatAux (fuel n : Nat) : List Char :=
  match fuel with
  | 0 => []
  | fuel + 1 => if n = 0 then [] else Nat.digitChar (n % 10) :: renderNatAux fuel (n / 10)

/-- Decimal rendering of a natural number, the semantics of Go's
`fmt.Sprintf` verb `%d` on a non-negative value. -/
def renderNat (n : Nat) : Str :=
  if n = 0 then ['0'] else (renderNatAux n n).reverse

/-- Decimal rendering of an integer (`%d`), with a leading minus sign on
negative values. -/
def renderInt (i : Int) : Str :=
  if i < 0 then '-' :: renderNat i.natAbs else renderNat i.toNat

/-- Source: `taskRepository.getCacheKey` (`task_repo.go` lines 40-52):
`tasks:<uid>`, then `:status:<s>` when the status filter is set, then
`:priority:<p>` when the priority filter is set, then
`:limit:<l>:offset:<o>`.  The date-range fields never enter the key. -/
def getCacheKey (uid : Uuid) (f : TaskFilter) : Str :=
  let key := strLit "tasks:" ++ uid
  let key := match f.Status with
    | some s => key ++ strLit ":status:" ++ s
    | none => key
  let key := match f.Priority with
    | some p => key ++ strLit ":priority:" ++ renderInt p
    | none => key
  key ++ strLit ":limit:" ++ renderInt f.Limit ++ strLit ":offset:" ++ renderInt f.Offset

/-- Every string is a prefix of itself extended by anything. -/
lemma startsWith_self_append (p r : Str) : startsWith p (p ++ r) = true := by
  induction p with
  | nil => rfl
  | cons a p ih => simp [startsWith, ih]

/-- A common leading segment cancels in the prefix test. -/
lemma startsWith_append_cancel (p a s : Str) :
    startsWith (p ++ a) (p ++ s) = startsWith a s := by
  induction p with
  | nil => rfl
  | cons c p ih => simp [startsWith, ih]

/-- Two equal-length strings where one starts the other's extension are
equal. -/
lemma startsWith_eq_of_length (a : Str) : ∀ (b r : Str), a.length = b.length →
    startsWith a (b ++ r) = true → a = b := by
  induction a with
  | nil =>
    intro b r hlen _
    cases b with
    | nil => rfl
    | cons d b => simp at hlen
  | cons c a ih =>
    intro b r hlen h
    cases b with
    | nil => simp at hlen
    | cons d b =>
      simp only [List.cons_append, startsWith, Bool.and_eq_true, beq_iff_eq] at h
      obtain ⟨h1, h2⟩ := h
      have hlen' : a.length = b.length := by simpa using hlen
      rw [h1, ih b r hlen' h2]

/-- Filtering out the keys matched by `pred` makes every matched key
unfindable. -/
lemma find?_filter_no {β : Type} (l : List (Str × β)) (pred : Str → Bool) (k : Str)
    (hk : pred k = true) :
    (l.filter (fun kv => !(pred kv.1))).find? (fun kv => kv.1 == k) = none := by
  induction l with
  | nil => rfl
  | cons kv l ih =>
    by_cases hp : pred kv.1 = true
    · simp [List.filter_cons, hp, ih]
    · simp only [Bool.not_eq_true] at hp
      have hne : (kv.1 == k) = false := by
        refine beq_eq_false_iff_ne.mpr ?_
        intro he
        rw [he, hk] at hp
        exact Bool.noConfusion hp
      simp [List.filter_cons, hp, List.find?_cons, hne, ih]

/-- Filtering out the keys matched by `pred` leaves lookups of unmatched
keys unchanged. -/
lemma find?_filter_keep {β : Type} (l : List (Str × β)) (pred : Str → Bool) (k : Str)
    (hk : pred k = false) :
    (l.filter (fun kv => !(pred kv.1))).find? (fun kv => kv.1 == k)
      = l.find? (fun kv => kv.1 == k) := by
  induction l with
  | nil => rfl
  | cons kv l ih =>
    by_cases hp : pred kv.1 = true
    · have hne : (kv.1 == k) = false := by
        refine beq_eq_false_iff_ne.mpr ?_
        intro he
        rw [he, hk] at hp
        exact Bool.noConfusion hp
      simp [List.filter_cons, hp, List.find?_cons, hne, ih]
    · simp only [Bool.not_eq_true] at hp
      by_cases he : (kv.1 == k) = true
      · simp [List.filter_cons, hp, List.find?_cons, he]
      · simp only [Bool.not_eq_true] at he
        simp [List.filter_cons, hp, List.find?_cons, he, ih]

/-- The part of the derived cache key that follows the owner prefix. -/
def keyTail (f : TaskFilter) : Str :=
  (match f.Status with | some s => strLit ":status:" ++ s | none => [])
    ++ ((match f.Priority with | some p => strLit ":priority:" ++ renderInt p | none => [])
    ++ (strLit ":limit:" ++ (renderInt f.Limit ++ (strLit ":offset:" ++ renderInt f.Offset))))

/-- The derived cache key decomposes as owner prefix followed by the
field tail. -/
lemma getCacheKey_eq (u : Uuid) (f : TaskFilter) :
    getCacheKey u f = (strLit "tasks:" ++ u) ++ keyTail f := by
  cases hS : f.Status <;> cases hP : f.Priority <;>
    simp [getCacheKey, keyTail, hS, hP, List.append_assoc]

/-- The derived cache key for an owner starts with that owner's prefix. -/
lemma getCacheKey_startsWith (u : Uuid) (f : TaskFilter) :
    startsWith (strLit "tasks:" ++ u) (getCacheKey u f) = true := by
  rw [getCacheKey_eq]
  exact startsWith_self_append _ _

/-- The derived cache key of a different owner of the same rendered
length does not carry this owner's prefix. -/
lemma getCacheKey_not_startsWith (u u' : Uuid) (f : TaskFilter)
    (hlen : u'.length = u.length) (hne : u' ≠ u) :
    startsWith (strLit "tasks:" ++ u) (getCacheKey u' f) = false := by
  by_contra hcon
  rw [Bool.not_eq_false] at hcon
  rw [getCacheKey_eq, List.append_assoc] at hcon
  rw [startsWith_append_cancel (strLit "tasks:") u (u' ++ keyTail f)] at hcon
  exact hne (startsWith_eq_of_length u u' (keyTail f) hlen.symm hcon).symm

/-- C8: after a successful `Update`, once `invalidateUserCache` has
completed, every cache entry whose key carries the owner's prefix is
gone — in particular every derived cache key of that owner now misses —
while entries of other owners are untouched. -/
theorem C8_invalidation (db : DbState) (c : CacheState) (t : Task) (dbNow : Time)
    (hc : c.fail = none) (hdb : db.fail = none)
    (hrow : (findRow db.rows t.ID).isSome = true) :
    (Update db (some c) t dbNow).1 = none
    ∧ (Update db (some c) t dbNow).2.2 = some (invalidateUserCache t.UserID c)
    ∧ (∀ k, startsWith (strLit "tasks:" ++ t.UserID) k = true →
        cacheGet (invalidateUserCache t.UserID c) k = none)
    ∧ (∀ f, cacheGet (invalidateUserCache t.UserID c) (getCacheKey t.UserID f) = none)
    ∧ (∀ u' f, u'.length = t.UserID.length → u' ≠ t.UserID →
        cacheGet (invalidateUserCache t.UserID c) (getCacheKey u' f)
          = cacheGet c (getCacheKey u' f)) := by
  obtain ⟨r, hr⟩ := Option.isSome_iff_exists.mp hrow
  have hmiss : ∀ k, startsWith (strLit "tasks:" ++ t.UserID) k = true →
      cacheGet (invalidateUserCache t.UserID c) k = none := by
    intro k hk
    rw [invalidateUserCache, hc]
    rw [cacheGet]
    simp only
    rw [find?_filter_no c.entries _ k hk]
    rfl
  refine ⟨?_, ?_, hmiss, ?_, ?_⟩
  · rw [Update, hdb, hr]
  · rw [Update, hdb, hr]
    rfl
  · intro f
    exact hmiss _ (getCacheKey_startsWith t.UserID f)
  · intro u' f hlen hne
    rw [invalidateUserCache, hc]
    rw [cacheGet, cacheGet]
    simp only
    rw [find?_filter_keep c.entries _ _ (getCacheKey_not_startsWith t.UserID u' f hlen hne)]

/-- Witness for C8: a successful update of the stale task against an
empty, healthy cache performs the owner-scoped invalidation. -/
theorem C8_invalidation_witness :
    (Update ⟨[staleTask], none⟩ (some ⟨[], none⟩) staleTask 3).1 = none
    ∧ (Update ⟨[staleTask], none⟩ (some ⟨[], none⟩) staleTask 3).2.2
        = some (invalidateUserCache staleTask.UserID ⟨[], none⟩) :=
  ⟨(C8_invalidation ⟨[staleTask], none⟩ ⟨[], none⟩ staleTask 3 rfl rfl rfl).1,
   (C8_invalidation ⟨[staleTask], none⟩ ⟨[], none⟩ staleTask 3 rfl rfl rfl).2.1⟩

/-- Numeric value of a decimal digit character. -/
def charVal (c : Char) : Nat := c.toNat - '0'.toNat

/-- Value of a little-endian list of decimal digit characters. -/
def strVal : List Char → Nat
  | [] => 0
  | c :: r => charVal c + 10 * strVal r

lemma charVal_digitChar (d : Nat) (h : d < 10) :
    charVal (Nat.digitChar d) = d := by
  interval_cases d <;> rfl

lemma digitChar_ne_colon (d : Nat) (h : d < 10) : Nat.digitChar d ≠ ':' := by
  interval_cases d <;> decide

lemma digitChar_ne_dash (d : Nat) (h : d < 10) : Nat.digitChar d ≠ '-' := by
  interval_cases d <;> decide

lemma renderNatAux_val (fuel : Nat) : ∀ n, n ≤ fuel → strVal (renderNatAux fuel n) = n := by
  induction fuel with
  | zero =>
    intro n hn
    have : n = 0 := Nat.le_zero.mp hn
    simp [renderNatAux, strVal, this]
  | succ fuel ih =>
    intro n hn
    by_cases hz : n = 0
    · simp [renderNatAux, hz, strVal]
    · have hmod : n % 10 < 10 := Nat.mod_lt n (by norm_num)
      have hdiv : n / 10 ≤ fuel := by
        have := Nat.div_lt_self (Nat.pos_of_ne_zero hz) (by norm_num : 1 < 10)
        omega
      simp only [renderNatAux, hz, if_neg, strVal]
      rw [charVal_digitChar (n % 10) hmod, ih (n / 10) hdiv]
      omega

lemma renderNatAux_chars (fuel : Nat) : ∀ n, ∀ c ∈ renderNatAux fuel n,
    ∃ d, d < 10 ∧ c = Nat.digitChar d := by
  induction fuel with
  | zero => intro n c hc; simp [renderNatAux] at hc
  | succ fuel ih =>
    intro n c hc
    by_cases hz : n = 0
    · simp [renderNatAux, hz] at hc
    · simp only [renderNatAux, hz, if_neg] at hc
      cases hc with
      | head => exact ⟨n % 10, Nat.mod_lt n (by norm_num), rfl⟩
      | tail b h => exact ih (n / 10) c h

lemma renderNat_chars (n : Nat) : ∀ c ∈ renderNat n,
    ∃ d, d < 10 ∧ c = Nat.digitChar d := by
  intro c hc
  rw [renderNat] at hc
  by_cases hz : n = 0
  · rw [if_pos hz] at hc
    simp at hc
    exact ⟨0, by norm_num, by rw [hc]; rfl⟩
  · rw [if_neg hz] at hc
    rw [List.mem_reverse] at hc
    exact renderNatAux_chars n n c hc

lemma renderNat_ne_colon (n : Nat) : ':' ∉ renderNat n := by
  intro hmem
  obtain ⟨d, hd, hc⟩ := renderNat_chars n ':' hmem
  exact digitChar_ne_colon d hd hc.symm

lemma renderNat_ne_dash (n : Nat) : '-' ∉ renderNat n := by
  intro hmem
  obtain ⟨d, hd, hc⟩ := renderNat_chars n '-' hmem
  exact digitChar_ne_dash d hd hc.symm

lemma renderNat_inj (m n : Nat) (h : renderNat m = renderNat n) : m = n := by
  by_cases hm : m = 0 <;> by_cases hn : n = 0
  · rw [hm, hn]
  · rw [renderNat, renderNat, if_pos hm, if_neg hn] at h
    have hrev : renderNatAux n n = ['0'] := by
      have := congrArg List.reverse h
      simpa using this.symm
    have := renderNatAux_val n n (le_refl n)
    rw [hrev] at this
    simp [strVal, charVal] at this
    exact absurd this.symm hn
  · rw [renderNat, renderNat, if_neg hm, if_pos hn] at h
    have hrev : renderNatAux m m = ['0'] := by
      have := congrArg List.reverse h
      simpa using this
    have := renderNatAux_val m m (le_refl m)
    rw [hrev] at this
    simp [strVal, charVal] at this
    exact absurd this.symm hm
  · rw [renderNat, renderNat, if_neg hm, if_neg hn] at h
    have haux : renderNatAux m m = renderNatAux n n := by
      have := congrArg List.reverse h
      simpa using this
    have h1 := renderNatAux_val m m (le_refl m)
    have h2 := renderNatAux_val n n (le_refl n)
    rw [← h1, ← h2, haux]

lemma renderInt_ne_colon (i : Int) : ':' ∉ renderInt i := by
  rw [renderInt]
  by_cases hi : i < 0
  · rw [if_pos hi]
    intro hmem
    rcases List.mem_cons.mp hmem with h | h
    · exact absurd h (by decide)
    · exact renderNat_ne_colon _ h
  · rw [if_neg hi]
    exact renderNat_ne_colon _

lemma renderInt_inj (i j : Int) (h : renderInt i = renderInt j) : i = j := by
  rw [renderInt, renderInt] at h
  by_cases hi : i < 0 <;> by_cases hj : j < 0
  · rw [if_pos hi, if_pos hj] at h
    have := renderNat_inj _ _ (List.tail_eq_of_cons_eq h)
    omega
  · rw [if_pos hi, if_neg hj] at h
    have : '-' ∈ renderNat j.toNat := by
      rw [← h]
      exact List.mem_cons_self _ _
    exact absurd this (renderNat_ne_dash _)
  · rw [if_neg hi, if_pos hj] at h
    have : '-' ∈ renderNat i.toNat := by
      rw [h]
      exact List.mem_cons_self _ _
    exact absurd this (renderNat_ne_dash _)
  · rw [if_neg hi, if_neg hj] at h
    have := renderNat_inj _ _ h
    omega

/-- Splitting at the first colon: two colon-free segments followed by a
colon and arbitrary tails coincide exactly componentwise. -/
lemma split_colon : ∀ (a b x y : Str), ':' ∉ a → ':' ∉ b →
    a ++ ':' :: x = b ++ ':' :: y → a = b ∧ x = y := by
  intro a
  induction a with
  | nil =>
    intro b x y _ hb h
    cases b with
    | nil => simpa using h
    | cons d b =>
      simp only [List.nil_append, List.cons_append, List.cons.injEq] at h
      exact absurd (h.1.symm ▸ List.mem_cons_self d b : ':' ∈ d :: b) hb
  | cons c a ih =>
    intro b x y ha hb h
    cases b with
    | nil =>
      simp only [List.cons_append, List.nil_append, List.cons.injEq] at h
      exact absurd (h.1 ▸ List.mem_cons_self c a : ':' ∈ c :: a) ha
    | cons d b =>
      simp only [List.cons_append, List.cons.injEq] at h
      obtain ⟨hcd, hrest⟩ := h
      have ha' : ':' ∉ a := fun hmem => ha (List.mem_cons_of_mem c hmem)
      have hb' : ':' ∉ b := fun hmem => hb (List.mem_cons_of_mem d hmem)
      obtain ⟨hab, hxy⟩ := ih b x y ha' hb' hrest
      exact ⟨by rw [hcd, hab], hxy⟩

/-- The `:limit:<l>:offset:<o>` suffix determines limit and offset. -/
lemma limoff_inj (L1 O1 L2 O2 : Int)
    (h : renderInt L1 ++ (':' :: (strLit "offset:" ++ renderInt O1))
       = renderInt L2 ++ (':' :: (strLit "offset:" ++ renderInt O2))) :
    L1 = L2 ∧ O1 = O2 := by
  obtain ⟨hL, hO⟩ :=
    split_colon _ _ _ _ (renderInt_ne_colon L1) (renderInt_ne_colon L2) h
  exact ⟨renderInt_inj _ _ hL, renderInt_inj _ _ (List.append_cancel_left hO)⟩

/-- The `<p>:limit:<l>:offset:<o>` suffix determines priority, limit and
offset. -/
lemma prioTail_inj (p1 p2 L1 O1 L2 O2 : Int)
    (h : renderInt p1 ++ (':' :: (strLit "limit:"
            ++ (renderInt L1 ++ (':' :: (strLit "offset:" ++ renderInt O1)))))
       = renderInt p2 ++ (':' :: (strLit "limit:"
            ++ (renderInt L2 ++ (':' :: (strLit "offset:" ++ renderInt O2)))))) :
    p1 = p2 ∧ L1 = L2 ∧ O1 = O2 := by
  obtain ⟨hp, ht⟩ :=
    split_colon _ _ _ _ (renderInt_ne_colon p1) (renderInt_ne_colon p2) h
  exact ⟨renderInt_inj _ _ hp, limoff_inj _ _ _ _ (List.append_cancel_left ht)⟩

/-- The key tail determines status, priority, limit and offset, provided
the status values are colon-free. -/
lemma keyTail_inj (f1 f2 : TaskFilter)
    (h1 : ∀ s, f1.Status = some s → ':' ∉ s)
    (h2 : ∀ s, f2.Status = some s → ':' ∉ s)
    (h : keyTail f1 = keyTail f2) :
    f1.Status = f2.Status ∧ f1.Priority = f2.Priority
      ∧ f1.Limit = f2.Limit ∧ f1.Offset = f2.Offset := by
  obtain ⟨S1, P1, D1, E1, L1, O1⟩ := f1
  obtain ⟨S2, P2, D2, E2, L2, O2⟩ := f2
  simp only at h1 h2 ⊢
  cases S1 with
  | none =>
    cases S2 with
    | none =>
      cases P1 with
      | none =>
        cases P2 with
        | none =>
          have h' : ':' :: 'l' :: 'i' :: 'm' :: 'i' :: 't' :: ':'
                :: (renderInt L1 ++ (':' :: (strLit "offset:" ++ renderInt O1)))
              = ':' :: 'l' :: 'i' :: 'm' :: 'i' :: 't' :: ':'
                :: (renderInt L2 ++ (':' :: (strLit "offset:" ++ renderInt O2))) := h
          simp only [List.cons.injEq, true_and] at h'
          exact ⟨rfl, rfl, (limoff_inj _ _ _ _ h').1, (limoff_inj _ _ _ _ h').2⟩
        | some p2 =>
          exact absurd (congrArg (fun l => l.get? 1) h :
            (some 'l' : Option Char) = some 'p') (by decide)
      | some p1 =>
        cases P2 with
        | none =>
          exact absurd (congrArg (fun l => l.get? 1) h :
            (some 'p' : Option Char) = some 'l') (by decide)
        | some p2 =>
          have h' : ':' :: 'p' :: 'r' :: 'i' :: 'o' :: 'r' :: 'i' :: 't' :: 'y' :: ':'
                :: (renderInt p1 ++ (':' :: (strLit "limit:"
                    ++ (renderInt L1 ++ (':' :: (strLit "offset:" ++ renderInt O1))))))
              = ':' :: 'p' :: 'r' :: 'i' :: 'o' :: 'r' :: 'i' :: 't' :: 'y' :: ':'
                :: (renderInt p2 ++ (':' :: (strLit "limit:"
                    ++ (renderInt L2 ++ (':' :: (strLit "offset:" ++ renderInt O2)))))) := h
          simp only [List.cons.injEq, true_and] at h'
          obtain ⟨hp, hL, hO⟩ := prioTail_inj _ _ _ _ _ _ h'
          exact ⟨rfl, by rw [hp], hL, hO⟩
    | some s2 =>
      cases P1 with
      | none =>
        exact absurd (congrArg (fun l => l.get? 1) h :
          (some 'l' : Option Char) = some 's') (by decide)
      | some p1 =>
        exact absurd (congrArg (fun l => l.get? 1) h :
          (some 'p' : Option Char) = some 's') (by decide)
  | some s1 =>
    cases S2 with
    | none =>
      cases P2 with
      | none =>
        exact absurd (congrArg (fun l => l.get? 1) h :
          (some 's' : Option Char) = some 'l') (by decide)
      | some p2 =>
        exact absurd (congrArg (fun l => l.get? 1) h :
          (some 's' : Option Char) = some 'p') (by decide)
    | some s2 =>
      have hs1 : ':' ∉ s1 := h1 s1 rfl
      have hs2 : ':' ∉ s2 := h2 s2 rfl
      cases P1 with
      | none =>
        cases P2 with
        | none =>
          have h' : ':' :: 's' :: 't' :: 'a' :: 't' :: 'u' :: 's' :: ':'
                :: (s1 ++ (':' :: (strLit "limit:"
                    ++ (renderInt L1 ++ (':' :: (strLit "offset:" ++ renderInt O1))))))
              = ':' :: 's' :: 't' :: 'a' :: 't' :: 'u' :: 's' :: ':'
                :: (s2 ++ (':' :: (strLit "limit:"
                    ++ (renderInt L2 ++ (':' :: (strLit "offset:" ++ renderInt O2)))))) := h
          simp only [List.cons.injEq, true_and] at h'
          obtain ⟨hs, ht⟩ := split_colon _ _ _ _ hs1 hs2 h'
          obtain ⟨hL, hO⟩ := limoff_inj _ _ _ _ (List.append_cancel_left ht)
          exact ⟨by rw [hs], rfl, hL, hO⟩
        | some p2 =>
          have h' : ':' :: 's' :: 't' :: 'a' :: 't' :: 'u' :: 's' :: ':'
                :: (s1 ++ (':' :: (strLit "limit:"
                    ++ (renderInt L1 ++ (':' :: (strLit "offset:" ++ renderInt O1))))))
              = ':' :: 's' :: 't' :: 'a' :: 't' :: 'u' :: 's' :: ':'
                :: (s2 ++ (':' :: (strLit "priority:"
                    ++ (renderInt p2 ++ (':' :: (strLit "limit:"
                        ++ (renderInt L2 ++ (':' :: (strLit "offset:" ++ renderInt O2))))))))) := h
          simp only [List.cons.injEq, true_and] at h'
          obtain ⟨hs, ht⟩ := split_colon _ _ _ _ hs1 hs2 h'
          exact absurd (congrArg (fun l => l.get? 0) ht :
            (some 'l' : Option Char) = some 'p') (by decide)
      | some p1 =>
        cases P2 with
        | none =>
          have h' : ':' :: 's' :: 't' :: 'a' :: 't' :: 'u' :: 's' :: ':'
                :: (s1 ++ (':' :: (strLit "priority:"
                    ++ (renderInt p1 ++ (':' :: (strLit "limit:"
                        ++ (renderInt L1 ++ (':' :: (strLit "offset:" ++ renderInt O1)))))))))
              = ':' :: 's' :: 't' :: 'a' :: 't' :: 'u' :: 's' :: ':'
                :: (s2 ++ (':' :: (strLit "limit:"
                    ++ (renderInt L2 ++ (':' :: (strLit "offset:" ++ renderInt O2)))))) := h
          simp only [List.cons.injEq, true_and] at h'
          obtain ⟨hs, ht⟩ := split_colon _ _ _ _ hs1 hs2 h'
          exact absurd (congrArg (fun l => l.get? 0) ht :
            (some 'p' : Option Char) = some 'l') (by decide)
        | some p2 =>
          have h' : ':' :: 's' :: 't' :: 'a' :: 't' :: 'u' :: 's' :: ':'
                :: (s1 ++ (':' :: (strLit "priority:"
                    ++ (renderInt p1 ++ (':' :: (strLit "limit:"
                        ++ (renderInt L1 ++ (':' :: (strLit "offset:" ++ renderInt O1)))))))))
              = ':' :: 's' :: 't' :: 'a' :: 't' :: 'u' :: 's' :: ':'
                :: (s2 ++ (':' :: (strLit "priority:"
                    ++ (renderInt p2 ++ (':' :: (strLit "limit:"
                        ++ (renderInt L2 ++ (':' :: (strLit "offset:" ++ renderInt O2))))))))) := h
          simp only [List.cons.injEq, true_and] at h'
          obtain ⟨hs, ht⟩ := split_colon _ _ _ _ hs1 hs2 h'
          obtain ⟨hp, hL, hO⟩ := prioTail_inj _ _ _ _ _ _ (List.append_cancel_left ht)
          exact ⟨by rw [hs], by rw [hp], hL, hO⟩

/-- Membership in the four declared status constants of the data model. -/
def enumStatus (s : TaskStatus) : Prop :=
  s = StatusPending ∨ s = StatusInProgress ∨ s = StatusCompleted ∨ s = StatusCancelled

lemma enumStatus_no_colon (s : TaskStatus) (h : enumStatus s) : ':' ∉ s := by
  rcases h with h | h | h | h <;> subst h <;> decide

/-- C3 as stated fails on the code: the status field of a filter is an
arbitrary string (the Go type is `type TaskStatus string` and the query
binding applies no validation), and a status embedding the literal
`:priority:` separator collides with a structurally different filter. -/
theorem C3_counterexample :
    getCacheKey (strLit "u1")
        ⟨some (strLit "pending:priority:1"), none, none, none, 10, 0⟩
      = getCacheKey (strLit "u1")
        ⟨some (strLit "pending"), some 1, none, none, 10, 0⟩
    ∧ (⟨some (strLit "pending:priority:1"), none, none, none, 10, 0⟩ : TaskFilter)
      ≠ ⟨some (strLit "pending"), some 1, none, none, 10, 0⟩
    ∧ (some (strLit "pending:priority:1") : Option TaskStatus)
      ≠ some (strLit "pending") := by
  refine ⟨rfl, by decide, by decide⟩

/-- C3 amended: for every owner, restricted to status values among the
four declared constants, the cache key is the same exactly when the
(status, priority, limit, offset) quadruples are the same — identical
field values collide, differing field values (of those four fields)
separate. -/
theorem C3_cache_key_injective (u : Uuid) (f1 f2 : TaskFilter)
    (h1 : ∀ s, f1.Status = some s → enumStatus s)
    (h2 : ∀ s, f2.Status = some s → enumStatus s) :
    getCacheKey u f1 = getCacheKey u f2 ↔
      (f1.Status = f2.Status ∧ f1.Priority = f2.Priority
        ∧ f1.Limit = f2.Limit ∧ f1.Offset = f2.Offset) := by
  constructor
  · intro h
    rw [getCacheKey_eq, getCacheKey_eq] at h
    exact keyTail_inj f1 f2
      (fun s hs => enumStatus_no_colon s (h1 s hs))
      (fun s hs => enumStatus_no_colon s (h2 s hs))
      (List.append_cancel_left h)
  · intro ⟨hS, hP, hL, hO⟩
    obtain ⟨S1, P1, D1, E1, L1, O1⟩ := f1
    obtain ⟨S2, P2, D2, E2, L2, O2⟩ := f2
    simp only at hS hP hL hO
    subst hS
    subst hP
    subst hL
    subst hO
    rfl

/-- Witness for the amended C3: two filters agreeing on the four key
fields but differing in the date range carry the same key. -/
theorem C3_cache_key_injective_witness :
    getCacheKey (strLit "u1") ⟨some StatusPending, some 2, some 7, none, 10, 0⟩
      = getCacheKey (strLit "u1") ⟨some StatusPending, some 2, none, some 9, 10, 0⟩ :=
  (C3_cache_key_injective (strLit "u1")
      ⟨some StatusPending, some 2, some 7, none, 10, 0⟩
      ⟨some StatusPending, some 2, none, some 9, 10, 0⟩
      (fun s hs => by injection hs with hs; rw [← hs]; exact Or.inl rfl)
      (fun s hs => by injection hs with hs; rw [← hs]; exact Or.inl rfl)).mpr
    ⟨rfl, rfl, rfl, rfl⟩

/-- Abstract state of a `TaskWorker`'s pool (`worker.go` lines 16-51):
`waiting` goroutines have been spawned by `ProcessTaskAsync` and are
blocked sending into the `workerPool` channel; `processing` goroutines
hold a pool slot (between the send and the deferred receive); `done`
goroutines have released their slot. -/
structure PoolState where
  waiting : Nat
  processing : Nat
  done : Nat
deriving DecidableEq, Repr

/-- Transitions of the worker pool with cap `N` (`maxWorkers`):
`submit` is `ProcessTaskAsync` spawning a goroutine (always possible —
nothing is rejected); `acquire` is `w.workerPool <- struct{}{}`
succeeding, which the buffered channel of capacity `N` allows only while
fewer than `N` slots are held; `finish` is the deferred
`<-w.workerPool` releasing a slot. -/
inductive PoolStep (N : Nat) : PoolState → PoolState → Prop where
  | submit (s : PoolState) :
      PoolStep N s ⟨s.waiting + 1, s.processing, s.done⟩
  | acquire (s : PoolState) (hw : 0 < s.waiting) (h : s.processing < N) :
      PoolStep N s ⟨s.waiting - 1, s.processing + 1, s.done⟩
  | finish (s : PoolState) (h : 0 < s.processing) :
      PoolStep N s ⟨s.waiting, s.processing - 1, s.done + 1⟩

/-- States reachable from an idle worker by any submission burst and any
interleaving. -/
def PoolReachable (N : Nat) : PoolState → Prop :=
  Relation.ReflTransGen (PoolStep N) ⟨0, 0, 0⟩

/-- C5: in every reachable state of a `TaskWorker` with cap `N`, at most
`N` items are simultaneously in the `Processing` state, and submission
is never refused — a new item can always be registered (it waits for a
slot rather than being rejected). -/
theorem C5_pool_bound (N : Nat) (s : PoolState) (h : PoolReachable N s) :
    s.processing ≤ N
    ∧ ∀ s' : PoolState, PoolStep N s' ⟨s'.waiting + 1, s'.processing, s'.done⟩ := by
  refine ⟨?_, fun s' => PoolStep.submit s'⟩
  induction h with
  | refl => exact Nat.zero_le N
  | tail _ hstep ih =>
    cases hstep with
    | submit => exact ih
    | acquire hw hlt => exact hlt
    | finish hp => simp only; omega

/-- Witness for C5: the idle worker with cap 1 holds the bound. -/
theorem C5_pool_bound_witness :
    (⟨0, 0, 0⟩ : PoolState).processing ≤ 1 :=
  (C5_pool_bound 1 ⟨0, 0, 0⟩ Relation.ReflTransGen.refl).1

/-- Result of one group goroutine of `BatchProcessTasks` (`worker.go`
lines 91-109): the tasks it handed to `ProcessTaskAsync`, the errors it
pushed into `errChan`, and whether it hit the nil-pointer dereference.
The caller's context is modelled as never cancelled. -/
structure GroupRun where
  dispatched : List Task
  errs : List Str
  panicked : Bool
deriving DecidableEq, Repr

/-- One group's loop: look every id up; `err != nil` records the error
and continues; otherwise the code dereferences `*task` unconditionally,
so a `(nil, nil)` result from `FindByID` (absent id) is a nil-pointer
dereference that panics the goroutine — nothing later in the group
runs. -/
def runGroup (db : DbState) : List Uuid → GroupRun
  | [] => ⟨[], [], false⟩
  | id :: rest =>
    match FindByID db id with
    | (_, some e) =>
      let r := runGroup db rest
      ⟨r.dispatched, e :: r.errs, r.panicked⟩
    | (some t, none) =>
      let r := runGroup db rest
      ⟨t :: r.dispatched, r.errs, r.panicked⟩
    | (none, none) => ⟨[], [], true⟩

/-- All group goroutines of one `BatchProcessTasks` call. -/
def runBatch (db : DbState) (ids : List Uuid) (batchSize : Nat) : List GroupRun :=
  (makeBatches ids batchSize).map (runGroup db)

/-- Number of errors collected from `errChan` (`worker.go` lines 119-124). -/
def batchErrors (rs : List GroupRun) : Nat :=
  (rs.map (fun r => r.errs.length)).sum

/-- Whether some group goroutine panicked; an uncaught panic in any
goroutine crashes the whole Go process. -/
def batchCrashed (rs : List GroupRun) : Bool :=
  rs.any (fun r => r.panicked)

/-- Source: `TaskWorker.BatchProcessTasks` (`worker.go` lines 72-131).
`none` means the call never returns a value because a group goroutine
panicked and took the process down; `some none` is a nil error return;
`some (some e)` is the aggregate error naming the failure count. -/
def BatchProcessTasks (db : DbState) (ids : List Uuid) (batchSize : Nat) :
    Option (Option Str) :=
  let rs := runBatch db ids batchSize
  if batchCrashed rs then none
  else if 0 < batchErrors rs then
    some (some (strLit "batch processing completed with "
      ++ renderNat (batchErrors rs) ++ strLit " errors"))
  else some none

/-- The store for the C1 failing input: ids a, b, d, e exist; c does not. -/
def dbC1 : DbState :=
  ⟨[mkTask (strLit "a") (strLit "u1") StatusPending none 0,
    mkTask (strLit "b") (strLit "u1") StatusPending none 1,
    mkTask (strLit "d") (strLit "u1") StatusPending none 2,
    mkTask (strLit "e") (strLit "u1") StatusPending none 3], none⟩

/-- The submitted batch for the C1 failing input. -/
def idsC1 : List Uuid :=
  [strLit "a", strLit "b", strLit "c", strLit "d", strLit "e"]

/-- C1 fails on the code: with ids [a,b,c,d,e], batch size 2 and only c
absent, the group [c,d] hits the nil-pointer dereference at c (because
`FindByID` reports absence as `(nil, nil)` and the code only checks the
error), so d is never dispatched — only 3 of the 4 existing tasks are —
and the call returns no aggregate error at all: the panic crashes the
process. -/
theorem C1_nil_deref :
    runGroup dbC1 [strLit "c", strLit "d"] = ⟨[], [], true⟩
    ∧ batchCrashed (runBatch dbC1 idsC1 2) = true
    ∧ BatchProcessTasks dbC1 idsC1 2 = none
    ∧ (((runBatch dbC1 idsC1 2).map GroupRun.dispatched).flatten).length = 3 := by
  have hb : makeBatches idsC1 2
      = [[strLit "a", strLit "b"], [strLit "c", strLit "d"], [strLit "e"]] := by
    simp [makeBatches, idsC1]
  refine ⟨by decide, ?_, ?_, ?_⟩
  · rw [runBatch, hb]
    decide
  · rw [BatchProcessTasks, runBatch, hb]
    decide
  · rw [runBatch, hb]
    decide

/-- Source: `TaskWorker.processTask` success branch (`worker.go` lines
56-65): after the simulated processing delay, the task's status is set
to `StatusCompleted`, its completion timestamp to the current time, and
the result is written through `repo.Update`.  The timeout branch
(`ctx.Done`) aborts without an update and is excluded by C7's
"completes successfully" hypothesis. -/
def processTask (now : Time) (t : Task) : Task :=
  { t with Status := StatusCompleted, CompletedAt := some now }

/-- Terminal effect of draining: every dispatched item runs its
`processTask` success branch and issues its store update; `items` is
the completion order of the outstanding work items when `Wait` returns
(`worker.go` lines 133-135). -/
def drainRun (db : DbState) (cache : Option CacheState) (items : List Task)
    (now dbNow : Time) : DbState × Option CacheState :=
  match items with
  | [] => (db, cache)
  | t :: rest =>
    let r := Update db cache (processTask now t) dbNow
    drainRun r.2.1 r.2.2 rest now dbNow

lemma findRow_some_ID {rows : List Task} {id : Uuid} {t : Task}
    (h : findRow rows id = some t) : t.ID = id := by
  have hb := List.find?_some h
  exact eq_of_beq hb

lemma Update_fail (db : DbState) (c : Option CacheState) (t : Task) (dbNow : Time) :
    (Update db c t dbNow).2.1.fail = db.fail := by
  obtain ⟨rows, fail⟩ := db
  cases fail with
  | some e => rfl
  | none =>
    cases hr : findRow rows t.ID with
    | none => simp [Update, hr]
    | some r0 => simp [Update, hr]

lemma Update_presence (db : DbState) (c : Option CacheState) (t : Task)
    (dbNow : Time) (id : Uuid) :
    (findRow (Update db c t dbNow).2.1.rows id).isSome
      = (findRow db.rows id).isSome := by
  obtain ⟨rows, fail⟩ := db
  cases fail with
  | some e => rfl
  | none =>
    cases hr : findRow rows t.ID with
    | none => simp [Update, hr]
    | some r0 =>
      simp only [Update, hr]
      have hf : ∀ r₀ : Task,
          ((fun r₀ => if (r₀.ID == t.ID) = true
              then applyUpdateRow t dbNow r₀ else r₀) r₀).ID = r₀.ID := by
        intro r₀
        by_cases hc : (r₀.ID == t.ID) = true
        · simp only [hc, if_pos]
          rfl
        · simp [hc]
      rw [findRow_map rows id _ hf]
      cases findRow rows id <;> rfl

lemma Update_other_id (db : DbState) (c : Option CacheState) (t : Task)
    (dbNow : Time) (id : Uuid) (hne : id ≠ t.ID) :
    findRow (Update db c t dbNow).2.1.rows id = findRow db.rows id := by
  obtain ⟨rows, fail⟩ := db
  cases fail with
  | some e => rfl
  | none =>
    cases hr : findRow rows t.ID with
    | none => simp [Update, hr]
    | some r0 =>
      simp only [Update, hr]
      have hf : ∀ r₀ : Task,
          ((fun r₀ => if (r₀.ID == t.ID) = true
              then applyUpdateRow t dbNow r₀ else r₀) r₀).ID = r₀.ID := by
        intro r₀
        by_cases hc : (r₀.ID == t.ID) = true
        · simp only [hc, if_pos]
          rfl
        · simp [hc]
      rw [findRow_map rows id _ hf]
      cases hfind : findRow rows id with
      | none => rfl
      | some r1 =>
        have hid1 : r1.ID = id := findRow_some_ID hfind
        have hcond : (r1.ID == t.ID) = false := by
          refine beq_eq_false_iff_ne.mpr ?_
          rw [hid1]
          exact hne
        have hnc : ¬ ((r1.ID == t.ID) = true) := by
          rw [hcond]
          exact Bool.false_ne_true
        rw [Option.map_some', if_neg hnc]

lemma Update_same_id (db : DbState) (c : Option CacheState) (t : Task)
    (dbNow : Time) (r0 : Task) (hdb : db.fail = none)
    (hr : findRow db.rows t.ID = some r0) :
    findRow (Update db c t dbNow).2.1.rows t.ID
      = some (applyUpdateRow t dbNow r0) := by
  obtain ⟨rows, fail⟩ := db
  simp only at hdb hr
  subst hdb
  simp only [Update, hr]
  have hf : ∀ r₀ : Task,
      ((fun r₀ => if (r₀.ID == t.ID) = true
          then applyUpdateRow t dbNow r₀ else r₀) r₀).ID = r₀.ID := by
    intro r₀
    by_cases hc : (r₀.ID == t.ID) = true
    · simp only [hc, if_pos]
      rfl
    · simp [hc]
  rw [findRow_map rows t.ID _ hf, hr]
  have hid0 : r0.ID = t.ID := findRow_some_ID hr
  simp [Option.map_some', hid0]

lemma drainRun_untouched (items : List Task) :
    ∀ (db : DbState) (c : Option CacheState) (now dbNow : Time) (id : Uuid),
    id ∉ items.map Task.ID →
    findRow (drainRun db c items now dbNow).1.rows id = findRow db.rows id := by
  induction items with
  | nil => intro db c now dbNow id _; rfl
  | cons t rest ih =>
    intro db c now dbNow id hid
    simp only [List.map_cons, List.mem_cons] at hid
    push_neg at hid
    simp only [drainRun]
    rw [ih _ _ _ _ _ hid.2]
    exact Update_other_id db c (processTask now t) dbNow id hid.1

lemma drainRun_completed (items : List Task) :
    ∀ (db : DbState) (c : Option CacheState) (now dbNow : Time) (id : Uuid),
    db.fail = none → (findRow db.rows id).isSome = true →
    id ∈ items.map Task.ID →
    ∃ r, findRow (drainRun db c items now dbNow).1.rows id = some r
      ∧ r.Status = StatusCompleted ∧ r.CompletedAt = some now := by
  induction items with
  | nil => intro db c now dbNow id _ _ hid; simp at hid
  | cons t rest ih =>
    intro db c now dbNow id hdb hpres hid
    simp only [drainRun]
    by_cases hin : id ∈ rest.map Task.ID
    · refine ih _ _ _ _ _ ?_ ?_ hin
      · rw [Update_fail]
        exact hdb
      · rw [Update_presence]
        exact hpres
    · have hidt : id = t.ID := by
        simp only [List.map_cons, List.mem_cons] at hid
        rcases hid with h | h
        · exact h
        · exact absurd h hin
      obtain ⟨r0, hr0⟩ := Option.isSome_iff_exists.mp hpres
      rw [drainRun_untouched rest _ _ _ _ _ hin]
      have hsame := Update_same_id db c (processTask now t) dbNow r0 hdb
        (by rw [show (processTask now t).ID = t.ID from rfl, ← hidt]; exact hr0)
      rw [show (processTask now t).ID = t.ID from rfl, ← hidt] at hsame
      exact ⟨applyUpdateRow (processTask now t) dbNow r0, hsame, rfl, rfl⟩

lemma runGroup_all_found (db : DbState) (hdb : db.fail = none) :
    ∀ g : List Uuid, (∀ id ∈ g, (findRow db.rows id).isSome = true) →
    (runGroup db g).dispatched.map Task.ID = g
      ∧ (runGroup db g).errs = [] ∧ (runGroup db g).panicked = false := by
  intro g
  induction g with
  | nil => intro _; exact ⟨rfl, rfl, rfl⟩
  | cons id rest ih =>
    intro hall
    obtain ⟨t, ht⟩ := Option.isSome_iff_exists.mp (hall id (List.mem_cons_self id rest))
    have hfind : FindByID db id = (some t, none) := by
      rw [FindByID, hdb, ht]
    have htid : t.ID = id := findRow_some_ID ht
    obtain ⟨ih1, ih2, ih3⟩ := ih (fun i hi => hall i (List.mem_cons_of_mem id hi))
    simp only [runGroup, hfind]
    exact ⟨by simp [ih1, htid], ih2, ih3⟩

/-- C7: a successfully processed work item carries status `completed`
and a non-nil completion timestamp into its store update; consequently,
after a batch over existing ids followed by `Wait`, every underlying
task is stored as completed with a non-nil completion timestamp,
whatever order the outstanding items completed in. -/
theorem C7_drain_all_completed (db : DbState) (cache : Option CacheState)
    (ids : List Uuid) (n : Nat) (now dbNow : Time) (order : List Task)
    (hdb : db.fail = none) (hn : 1 ≤ n)
    (hall : ∀ id ∈ ids, (findRow db.rows id).isSome = true)
    (horder : order.Perm (((runBatch db ids n).map GroupRun.dispatched).flatten)) :
    (∀ (t : Task) (tm : Time), (processTask tm t).Status = StatusCompleted
      ∧ (processTask tm t).CompletedAt = some tm)
    ∧ ∀ id ∈ ids, ∃ r,
        findRow (drainRun db cache order now dbNow).1.rows id = some r
          ∧ r.Status = StatusCompleted ∧ r.CompletedAt = some now := by
  refine ⟨fun t tm => ⟨rfl, rfl⟩, ?_⟩
  intro id hid
  have hflat : (((runBatch db ids n).map GroupRun.dispatched).flatten).map Task.ID
      = ids := by
    rw [runBatch, List.map_map, List.map_flatten, List.map_map]
    have hmap : (makeBatches ids n).map
        (List.map Task.ID ∘ GroupRun.dispatched ∘ runGroup db)
        = (makeBatches ids n).map (fun g => g) := by
      refine List.map_congr_left ?_
      intro g hg
      have hsub : ∀ i ∈ g, (findRow db.rows i).isSome = true := by
        intro i hi
        refine hall i ?_
        rw [← makeBatches_flatten ids n hn]
        exact List.mem_flatten.mpr ⟨g, hg, hi⟩
      exact (runGroup_all_found db hdb g hsub).1
    rw [hmap]
    simp only [List.map_id']
    exact makeBatches_flatten ids n hn
  have hmem : id ∈ order.map Task.ID := by
    rw [(horder.map Task.ID).mem_iff, hflat]
    exact hid
  exact drainRun_completed order db cache now dbNow id hdb (hall id hid) hmem

/-- Witness for C7: the four-row store of the C1 instance with its four
ids, batch size 2, completing in dispatch order. -/
theorem C7_drain_all_completed_witness :
    ∃ r, findRow (drainRun dbC1 none
        (((runBatch dbC1 [strLit "a", strLit "b", strLit "d", strLit "e"] 2).map
            GroupRun.dispatched).flatten) 7 8).1.rows (strLit "a") = some r
      ∧ r.Status = StatusCompleted ∧ r.CompletedAt = some 7 :=
  (C7_drain_all_completed dbC1 none [strLit "a", strLit "b", strLit "d", strLit "e"]
      2 7 8 _ rfl (by norm_num) (by decide) (List.Perm.refl _)).2
    (strLit "a") (by decide)

/-- Outcome of the cache goroutine's lookup (`getTasksFromCache`,
`task_repo.go` lines 55-77): a warm entry, a miss (`redis.Nil` or nil
client — not an error), or a failure. -/
inductive CacheR (τ ε : Type) where
  | hit (v : List τ)
  | miss
  | err (e : ε)
deriving DecidableEq, Repr

/-- Outcome of the store goroutine's query (`getTasksFromDB`). -/
inductive DbR (τ ε : Type) where
  | ok (v : List τ)
  | err (e : ε)
deriving DecidableEq, Repr

/-- Value returned by `GetTasksWithConcurrency`.  `ok v` is
`return v, nil` (in particular `ok []` is the nil slice received from a
closed `tasksChan`); `errBoth` is the
`"both cache and DB failed: %v"` return naming one cause; `errAgg` is
the `"failed to get tasks: %v, %v"` return naming two causes (`none`
prints as a nil error); `errDirect` is the nil-cache branch returning
the store error unchanged. -/
inductive RaceResult (τ ε : Type) where
  | ok (v : List τ)
  | errBoth (e : Option ε)
  | errAgg (e1 e2 : Option ε)
  | errDirect (e : ε)
deriving DecidableEq, Repr

/-- State of one of the two racing goroutines: has not acted yet, is
blocked sending its result into the unbuffered `tasksChan`, or has
returned. -/
inductive GState (τ : Type) where
  | pend
  | blockedSend (v : List τ)
  | done
deriving DecidableEq, Repr

/-- Control position of the caller: the outer `select`; between
receiving an error and testing `len(errChan) == 2`; the inner `select`
holding the first error; or returned. -/
inductive MState (τ ε : Type) where
  | outer
  | lenCheck (e : Option ε)
  | inner (e1 : Option ε)
  | ret (r : RaceResult τ ε)
deriving DecidableEq, Repr

/-- Global state of one `GetTasksWithConcurrency` call (`task_repo.go`
lines 177-237): the two goroutines, whether the closer goroutine has
run `close(tasksChan); close(errChan)` (modelled as one step — no
observation can distinguish the gap), the buffer of the capacity-2
`errChan`, and the caller.  The caller's context is modelled as never
cancelled, and the detached `cacheTasks` refill as well as the
read-lock around the cache branch (no writer exists) are omitted: they
do not affect the returned value. -/
structure RaceState (τ ε : Type) where
  g1 : GState τ
  g2 : GState τ
  closed : Bool
  errBuf : List (Option ε)
  main : MState τ ε
deriving DecidableEq, Repr

/-- All goroutines spawned, channels empty and open, caller at the
outer `select`. -/
def raceInit (τ ε : Type) : RaceState τ ε :=
  ⟨.pend, .pend, false, [], .outer⟩

/-- Every one-step successor of a race state.  The cache goroutine
sends a hit into `tasksChan` (blocking) and anything else — a nil error
on a miss, the error otherwise — into the buffered `errChan`; the store
goroutine sends a success into `tasksChan` and an error into `errChan`;
the closer closes the channels once both are done; the caller's selects
receive from whichever channel is ready, where a closed `tasksChan`
yields the nil slice and a closed empty `errChan` yields a nil error. -/
def succs (c : CacheR τ ε) (d : DbR τ ε) (s : RaceState τ ε) :
    List (RaceState τ ε) :=
  let g1Moves : List (RaceState τ ε) :=
    match s.g1 with
    | .pend =>
      match c with
      | .hit v => [{ s with g1 := .blockedSend v }]
      | .miss => [{ s with g1 := .done, errBuf := s.errBuf ++ [none] }]
      | .err e => [{ s with g1 := .done, errBuf := s.errBuf ++ [some e] }]
    | _ => []
  let g2Moves : List (RaceState τ ε) :=
    match s.g2 with
    | .pend =>
      match d with
      | .ok v => [{ s with g2 := .blockedSend v }]
      | .err e => [{ s with g2 := .done, errBuf := s.errBuf ++ [some e] }]
    | _ => []
  let closerMoves : List (RaceState τ ε) :=
    match s.g1, s.g2, s.closed with
    | .done, .done, false => [{ s with closed := true }]
    | _, _, _ => []
  let mainMoves : List (RaceState τ ε) :=
    match s.main with
    | .outer =>
      (match s.g1 with
        | .blockedSend v => [{ s with g1 := .done, main := .ret (.ok v) }]
        | _ => [])
      ++ (match s.g2 with
        | .blockedSend v => [{ s with g2 := .done, main := .ret (.ok v) }]
        | _ => [])
      ++ (match s.errBuf with
        | e :: rest => [{ s with errBuf := rest, main := .lenCheck e }]
        | [] => if s.closed then [{ s with main := .lenCheck none }] else [])
      ++ (if s.closed then [{ s with main := .ret (.ok []) }] else [])
    | .lenCheck e =>
      if s.errBuf.length == 2 then [{ s with main := .ret (.errBoth e) }]
      else [{ s with main := .inner e }]
    | .inner e1 =>
      (match s.g1 with
        | .blockedSend v => [{ s with g1 := .done, main := .ret (.ok v) }]
        | _ => [])
      ++ (match s.g2 with
        | .blockedSend v => [{ s with g2 := .done, main := .ret (.ok v) }]
        | _ => [])
      ++ (match s.errBuf with
        | e2 :: rest => [{ s with errBuf := rest, main := .ret (.errAgg e1 e2) }]
        | [] => if s.closed then [{ s with main := .ret (.errAgg e1 none) }] else [])
      ++ (if s.closed then [{ s with main := .ret (.ok []) }] else [])
    | .ret _ => []
  g1Moves ++ g2Moves ++ closerMoves ++ mainMoves

/-- Exhaustive enumeration of the values returned on every schedule,
collected by depth-first exploration.  `none` means the fuel did not
suffice to finish every branch (or a branch deadlocked), so a `some`
result is a complete, terminating enumeration. -/
def raceOutcomes (c : CacheR τ ε) (d : DbR τ ε) :
    Nat → RaceState τ ε → Option (List (RaceResult τ ε))
  | 0, _ => none
  | fuel + 1, s =>
    match s.main with
    | .ret r => some [r]
    | _ =>
      match succs c d s with
      | [] => none
      | nexts =>
        nexts.foldr (fun s' acc =>
          match raceOutcomes c d fuel s', acc with
          | some l, some a => some (l ++ a)
          | _, _ => none) (some [])

/-- Insertion into a list sorted by `created_at` descending. -/
def insertDesc (t : Task) : List Task → List Task
  | [] => [t]
  | u :: rest =>
    if u.CreatedAt ≤ t.CreatedAt then t :: u :: rest else u :: insertDesc t rest

/-- The `ORDER BY created_at DESC` clause (ties in unspecified order, as
in SQL). -/
def sortByCreatedDesc (l : List Task) : List Task := l.foldr insertDesc []

/-- Source: the query built by `getTasksFromDB` (`task_repo.go` lines
80-145): `WHERE user_id = $1`, then one `AND` clause per present filter
field, then `ORDER BY created_at DESC LIMIT $l OFFSET $o` (the offset
is skipped before the limit is taken). -/
def sqlQueryTasks (rows : List Task) (uid : Uuid) (f : TaskFilter) : List Task :=
  let m := rows.filter (fun t => t.UserID == uid)
  let m := match f.Status with
    | some s => m.filter (fun t => t.Status == s)
    | none => m
  let m := match f.Priority with
    | some p => m.filter (fun t => t.Priority == p)
    | none => m
  let m := match f.FromDate with
    | some d0 => m.filter (fun t => decide (d0 ≤ t.CreatedAt))
    | none => m
  let m := match f.ToDate with
    | some d1 => m.filter (fun t => decide (t.CreatedAt ≤ d1))
    | none => m
  ((sortByCreatedDesc m).drop f.Offset.toNat).take f.Limit.toNat

/-- Modelled from the spec (§6, the persistent-store collaborator):
`query(ownerID, filterPredicates, orderBy=createdAt desc, limit,
offset)` — one pass keeping the rows satisfying the conjunction of the
owner test and every present filter predicate (written innermost-first;
conjunction order is immaterial), then ordering and paginating. -/
def specFilterMatch (f : TaskFilter) (uid : Uuid) (t : Task) : Bool :=
  (match f.ToDate with | some d1 => decide (t.CreatedAt ≤ d1) | none => true)
    && ((match f.FromDate with | some d0 => decide (d0 ≤ t.CreatedAt) | none => true)
    && ((match f.Priority with | some p => t.Priority == p | none => true)
    && ((match f.Status with | some s => t.Status == s | none => true)
    && (t.UserID == uid))))

/-- Modelled from the spec (§6): the direct persistent-store query. -/
def specDirectQuery (rows : List Task) (uid : Uuid) (f : TaskFilter) : List Task :=
  ((sortByCreatedDesc (rows.filter (fun t => specFilterMatch f uid t))).drop
    f.Offset.toNat).take f.Limit.toNat

/-- The SQL clause chain computes exactly the spec's one-pass filtered
query. -/
lemma sqlQuery_eq_spec (rows : List Task) (uid : Uuid) (f : TaskFilter) :
    sqlQueryTasks rows uid f = specDirectQuery rows uid f := by
  obtain ⟨S, P, F, T, L, O⟩ := f
  cases S <;> cases P <;> cases F <;> cases T <;>
    simp only [sqlQueryTasks, specDirectQuery, specFilterMatch,
      List.filter_filter, Bool.true_and, Bool.and_true]

/-- Source: `taskRepository.getTasksFromDB` (`task_repo.go` lines
80-145): the filtered, ordered, paginated query, or the wrapped
connection error. -/
def getTasksFromDB (db : DbState) (uid : Uuid) (f : TaskFilter) :
    DbR Task Str :=
  match db.fail with
  | some e => .err (strLit "failed to query tasks: " ++ e)
  | none => .ok (sqlQueryTasks db.rows uid f)

/-- Source: `taskRepository.getTasksFromCache` (`task_repo.go` lines
55-77): nil client and `redis.Nil` are misses (`(nil, nil)`), other
failures are wrapped errors; a warm entry is returned (serialization is
modelled as the identity). -/
def getTasksFromCache (cache : Option CacheState) (uid : Uuid) (f : TaskFilter) :
    CacheR Task Str :=
  match cache with
  | none => .miss
  | some c =>
    match c.fail with
    | some e => .err (strLit "failed to get from cache: " ++ e)
    | none =>
      match cacheGet c (getCacheKey uid f) with
      | some v => .hit v
      | none => .miss

/-- The nil-cache branch returns the store pair unchanged. -/
def dbToRace : DbR τ ε → RaceResult τ ε
  | .ok v => .ok v
  | .err e => .errDirect e

/-- Source: `taskRepository.GetTasksWithConcurrency` (`task_repo.go`
lines 171-238).  With no cache configured the call is a direct store
read; otherwise it is the two-goroutine race, whose full outcome set
over all schedules is enumerated (fuel 15 bounds every schedule, and a
`some` result certifies that every branch terminated). -/
def GetTasksWithConcurrency (cache : Option CacheState) (db : DbState)
    (uid : Uuid) (f : TaskFilter) : Option (List (RaceResult Task Str)) :=
  match cache with
  | none => some [dbToRace (getTasksFromDB db uid f)]
  | some c =>
    raceOutcomes (getTasksFromCache (some c) uid f) (getTasksFromDB db uid f)
      15 (raceInit Task Str)

/-- C4: with no cache configured, `resolve` returns exactly the direct
persistent-store query result — deterministically the same task list on
success (equal to the spec's one-pass direct query) and the same error
on failure. -/
theorem C4_nil_cache_direct (db : DbState) (uid : Uuid) (f : TaskFilter) :
    GetTasksWithConcurrency none db uid f
      = some [dbToRace (getTasksFromDB db uid f)]
    ∧ (db.fail = none →
        GetTasksWithConcurrency none db uid f
          = some [.ok (specDirectQuery db.rows uid f)])
    ∧ (∀ e, db.fail = some e →
        GetTasksWithConcurrency none db uid f
          = some [.errDirect (strLit "failed to query tasks: " ++ e)]) := by
  refine ⟨rfl, ?_, ?_⟩
  · intro hdb
    simp only [GetTasksWithConcurrency, getTasksFromDB, hdb, dbToRace,
      sqlQuery_eq_spec]
  · intro e hdb
    simp only [GetTasksWithConcurrency, getTasksFromDB, hdb, dbToRace]

/-- Witness for C4 at a concrete store and filter. -/
theorem C4_nil_cache_direct_witness :
    GetTasksWithConcurrency none ⟨[], none⟩ (strLit "u1") ⟨none, none, none, none, 10, 0⟩
      = some [.ok (specDirectQuery [] (strLit "u1") ⟨none, none, none, none, 10, 0⟩)] :=
  (C4_nil_cache_direct ⟨[], none⟩ (strLit "u1") ⟨none, none, none, none, 10, 0⟩).2.1 rfl

/-- Default filter used by concrete instances. -/
def defaultFilter : TaskFilter := ⟨none, none, none, none, 10, 0⟩

/-- Complete schedule enumeration when both branches fail: every
schedule ends in the aggregate error naming both causes (in one of the
two orders) or in the nil slice received from the closed channel. -/
lemma race_both_err (e1 e2 : ε) :
    raceOutcomes (CacheR.err e1 : CacheR τ ε) (DbR.err e2) 15 (raceInit τ ε)
      = some [
      .errAgg (some e1) (some e2),
      .ok [],
      .ok [],
      .errAgg (some e1) (some e2),
      .ok [],
      .errAgg (some e1) (some e2),
      .ok [],
      .errAgg (some e1) (some e2),
      .errAgg (some e1) (some e2),
      .ok [],
      .errAgg (some e1) (some e2),
      .ok [],
      .errAgg (some e1) (some e2),
      .errAgg (some e1) (some e2),
      .ok [],
      .errAgg (some e1) (some e2),
      .errAgg (some e2) (some e1),
      .ok [],
      .ok [],
      .errAgg (some e2) (some e1),
      .ok [],
      .errAgg (some e2) (some e1),
      .ok [],
      .errAgg (some e2) (some e1),
      .errAgg (some e2) (some e1),
      .ok [],
      .errAgg (some e2) (some e1),
      .ok [],
      .errAgg (some e2) (some e1),
      .errAgg (some e2) (some e1),
      .ok [],
      .errAgg (some e2) (some e1)] := rfl

/-- Complete schedule enumeration when only the cache fails: every
schedule returns the store's result with no error. -/
lemma race_cache_err_db_ok (e : ε) (v : List τ) :
    raceOutcomes (CacheR.err e : CacheR τ ε) (DbR.ok v) 15 (raceInit τ ε)
      = some (List.replicate 7 (.ok v)) := rfl

/-- Complete schedule enumeration when the cache hits and the store
fails: every schedule returns the cached entry with no error. -/
lemma race_hit_db_err (v : List τ) (e : ε) :
    raceOutcomes (CacheR.hit v : CacheR τ ε) (DbR.err e) 15 (raceInit τ ε)
      = some (List.replicate 7 (.ok v)) := rfl

/-- C2 fails on the code: with both the cache and the store failing,
there is a schedule on which `GetTasksWithConcurrency` returns the nil
slice with a nil error (the caller's select receives from the closed
`tasksChan`) instead of an aggregate error. -/
theorem C2_counterexample :
    RaceResult.ok []
      ∈ (GetTasksWithConcurrency (some ⟨[], some (strLit "x")⟩)
          ⟨[], some (strLit "y")⟩ (strLit "u1") defaultFilter).getD [] := by
  decide

/-- C2 amended: when both branches fail, the call returns — on a
schedule-dependent basis — either the aggregate error naming both
causes (in either order) or, racing the channel closure, a nil result
with no error; the aggregate error naming both causes is reachable.
When exactly one branch fails, every schedule returns the surviving
branch's result with no error: the store result under a failing cache,
the cached entry under a failing store. -/
theorem C2_failure_semantics :
    (∀ (db : DbState) (c : CacheState) (uid : Uuid) (f : TaskFilter) (ce de : Str),
      c.fail = some ce → db.fail = some de →
      ∃ L, GetTasksWithConcurrency (some c) db uid f = some L
        ∧ RaceResult.errAgg (some (strLit "failed to get from cache: " ++ ce))
            (some (strLit "failed to query tasks: " ++ de)) ∈ L
        ∧ ∀ r ∈ L,
            r = RaceResult.errAgg (some (strLit "failed to get from cache: " ++ ce))
                  (some (strLit "failed to query tasks: " ++ de))
            ∨ r = RaceResult.errAgg (some (strLit "failed to query tasks: " ++ de))
                  (some (strLit "failed to get from cache: " ++ ce))
            ∨ r = RaceResult.ok [])
    ∧ (∀ (db : DbState) (c : CacheState) (uid : Uuid) (f : TaskFilter) (ce : Str),
        c.fail = some ce → db.fail = none →
        ∃ L, GetTasksWithConcurrency (some c) db uid f = some L
          ∧ ∀ r ∈ L, r = RaceResult.ok (sqlQueryTasks db.rows uid f))
    ∧ (∀ (db : DbState) (c : CacheState) (uid : Uuid) (f : TaskFilter)
          (v : List Task) (de : Str),
        c.fail = none → db.fail = some de →
        cacheGet c (getCacheKey uid f) = some v →
        ∃ L, GetTasksWithConcurrency (some c) db uid f = some L
          ∧ ∀ r ∈ L, r = RaceResult.ok v) := by
  refine ⟨?_, ?_, ?_⟩
  · intro db c uid f ce de hc hd
    have hc' : getTasksFromCache (some c) uid f
        = .err (strLit "failed to get from cache: " ++ ce) := by
      simp only [getTasksFromCache, hc]
    have hd' : getTasksFromDB db uid f
        = .err (strLit "failed to query tasks: " ++ de) := by
      simp only [getTasksFromDB, hd]
    simp only [GetTasksWithConcurrency, hc', hd', race_both_err]
    refine ⟨_, rfl, by simp, ?_⟩
    intro r hr
    simp only [List.mem_cons, List.not_mem_nil, or_false] at hr
    tauto
  · intro db c uid f ce hc hd
    have hc' : getTasksFromCache (some c) uid f
        = .err (strLit "failed to get from cache: " ++ ce) := by
      simp only [getTasksFromCache, hc]
    have hd' : getTasksFromDB db uid f = .ok (sqlQueryTasks db.rows uid f) := by
      simp only [getTasksFromDB, hd]
    simp only [GetTasksWithConcurrency, hc', hd', race_cache_err_db_ok]
    refine ⟨_, rfl, ?_⟩
    intro r hr
    rw [List.eq_of_mem_replicate hr]
  · intro db c uid f v de hc hd hget
    have hc' : getTasksFromCache (some c) uid f = .hit v := by
      simp only [getTasksFromCache, hc, hget]
    have hd' : getTasksFromDB db uid f
        = .err (strLit "failed to query tasks: " ++ de) := by
      simp only [getTasksFromDB, hd]
    simp only [GetTasksWithConcurrency, hc', hd', race_hit_db_err]
    refine ⟨_, rfl, ?_⟩
    intro r hr
    rw [List.eq_of_mem_replicate hr]

/-- Witness for the amended C2: both collaborators failing concretely,
the aggregate error naming both causes is among the reachable returns. -/
theorem C2_failure_semantics_witness :
    RaceResult.errAgg (some (strLit "failed to get from cache: " ++ strLit "x"))
        (some (strLit "failed to query tasks: " ++ strLit "y"))
      ∈ (GetTasksWithConcurrency (some ⟨[], some (strLit "x")⟩)
          ⟨[], some (strLit "y")⟩ (strLit "u1") defaultFilter).getD [] := by
  obtain ⟨L, hL, hmem, _⟩ := C2_failure_semantics.1
    ⟨[], some (strLit "y")⟩ ⟨[], some (strLit "x")⟩ (strLit "u1") defaultFilter
    (strLit "x") (strLit "y") rfl rfl
  rw [hL]
  exact hmem

end TaskMgr
